import Mathlib

set_option maxRecDepth 8000

/-!
Verification of the `log_go` logging core against its specification.

The definitions below are a shallow embedding of the Go sources:
  * `logger.go`  — severity levels, the copy-on-write per-level writer
    registry (`add_output` / `del_output`), `log_t` with `AddOutput`,
    `DelOutput`, `Clear`, and the dispatch methods `Trace` … `Error`;
  * `setup.go`   — `WhatLevel`, `SetupLogger`, `MessageTG_t.FormatLog`
    (its byte-limit truncation loop), the default logger `__std`;
  * the call-site formatters `DT_t` / `FileLine_t` / `GetLogContext_t`.

Go maps are embedded as association lists (Go iteration order is
unspecified; the list order stands in for one iteration order), Go's
`atomic.LoadPointer` / `CompareAndSwapPointer` retry loops as the pure
replacement their successful CAS performs, and the side effect of
`Writer.Close()` as an explicit instrumentation log carried in the state.
-/

namespace LogGo

/-- `type level_t int` — a slot index into `log_t.out [5]unsafe.Pointer`.
All values occurring in the source are 0..4, so we use `Fin 5`. -/
abbrev level_t := Fin 5

/-- `type level_name_t struct { Name string; Levels []level_t }` -/
structure level_name_t where
  Name : String
  Levels : List level_t
deriving DecidableEq, Repr

/-- `LOG_TRACE = level_name_t{Name: "TRACE", Levels: []level_t{0, 1, 2, 3, 4}}` -/
def LOG_TRACE : level_name_t := { Name := "TRACE", Levels := [0, 1, 2, 3, 4] }

/-- `LOG_DEBUG = level_name_t{Name: "DEBUG", Levels: []level_t{1, 2, 3, 4}}` -/
def LOG_DEBUG : level_name_t := { Name := "DEBUG", Levels := [1, 2, 3, 4] }

/-- `LOG_INFO = level_name_t{Name: "INFO", Levels: []level_t{2, 3, 4}}` -/
def LOG_INFO : level_name_t := { Name := "INFO", Levels := [2, 3, 4] }

/-- `LOG_WARN = level_name_t{Name: "WARN", Levels: []level_t{3, 4}}` -/
def LOG_WARN : level_name_t := { Name := "WARN", Levels := [3, 4] }

/-- `LOG_ERROR = level_name_t{Name: "ERROR", Levels: []level_t{4}}` -/
def LOG_ERROR : level_name_t := { Name := "ERROR", Levels := [4] }

/-- `type writers_t map[string]Writer` — embedded as an association list
(`W` abstracts the `Writer` interface value). -/
abbrev writers_t (W : Type) := List (String × W)

/-- Map lookup on the association-list embedding of `writers_t`. -/
def wlookup {W : Type} (m : writers_t W) (name : String) : Option W :=
  (m.find? (fun kv => kv.1 == name)).map (·.2)

/-- `add_output`: builds `temp` by copying every entry of the current
snapshot and then setting `temp[name] = writer`; the successful
`CompareAndSwapPointer` publishes `temp`.  As a map this is the current
snapshot minus any old binding of `name`, plus `name ↦ writer`. -/
def add_output {W : Type} (m : writers_t W) (name : String) (w : W) : writers_t W :=
  m.filter (fun kv => kv.1 != name) ++ [(name, w)]

/-- `del_output`: builds `temp` from every entry whose key is not `name`,
remembering the writer bound to `name` if any; the successful CAS
publishes `temp` and then, if a writer was found, calls `writer.Close()`.
Returns the published snapshot together with the list of `Close()` calls
this slot performs (empty or a single writer). -/
def del_output {W : Type} (m : writers_t W) (name : String) : writers_t W × List W :=
  (m.filter (fun kv => kv.1 != name),
   match wlookup m name with
   | some w => [w]
   | none => [])

/-- `type log_t struct { out [5]unsafe.Pointer }`.  The `closed` field is
instrumentation: the sequence of `Writer.Close()` invocations performed
so far, in order. -/
structure log_t (W : Type) where
  out : Fin 5 → writers_t W
  closed : List W

/-- `NewEmpty()` — a logger whose five slots all hold the empty map
(`Clear` run on a zero `log_t`). -/
def NewEmpty (W : Type) : log_t W :=
  { out := fun _ => [], closed := [] }

/-- `func (self *log_t) AddOutput(name string, writer Writer, level []level_t)`
— `for _, v := range level { add_output(&self.out[v], name, writer) }`. -/
def log_t.AddOutput {W : Type} (s : log_t W) (name : String) (w : W)
    (level : List level_t) : log_t W :=
  level.foldl
    (fun st v => { st with out := Function.update st.out v (add_output (st.out v) name w) }) s

/-- The slot indices `0, 1, 2, 3, 4` visited by
`for i := 0; i < len(self.out); i++`, in loop order. -/
def allSlots : List level_t := [0, 1, 2, 3, 4]

/-- `func (self *log_t) DelOutput(name string)` —
`for i := 0; i < len(self.out); i++ { del_output(&self.out[i], name) }`;
each slot's `del_output` appends its `Close()` calls to the log. -/
def log_t.DelOutput {W : Type} (s : log_t W) (name : String) : log_t W :=
  allSlots.foldl
    (fun st i =>
      { out := Function.update st.out i (del_output (st.out i) name).1,
        closed := st.closed ++ (del_output (st.out i) name).2 }) s

/-- One observable step of `DelOutput`: either the successful CAS that
publishes slot `i`'s new snapshot, or a `Writer.Close()` call. -/
inductive DelEvent (W : Type) where
  | publish (i : level_t) (m : writers_t W)
  | close (w : W)
deriving DecidableEq, Repr

/-- The sequence of observable steps `DelOutput` performs, in execution
order: for each slot `0 … 4` the publishing CAS of that slot's new
snapshot, followed by the `Close()` call when a writer named `name` was
found in that slot (slots are independent, so slot `i`'s input snapshot
is `s.out i`). -/
def log_t.DelOutputTrace {W : Type} (s : log_t W) (name : String) : List (DelEvent W) :=
  allSlots.foldl
    (fun tr i =>
      tr ++ DelEvent.publish i (del_output (s.out i) name).1
         :: ((del_output (s.out i) name).2.map DelEvent.close)) []

/-- `func (self *log_t) Clear()` — stores a pointer to a fresh empty
`writers_t` into every slot; it performs no `Close()` call. -/
def log_t.Clear {W : Type} (s : log_t W) : log_t W :=
  { out := fun _ => [], closed := s.closed }

/-- One delivery performed by a dispatch method: a call
`v.WriteLevel(ctx, ts, level, format, args...)` on writer `v`. -/
structure Delivery (W : Type) where
  writer : W
  level : String
  msg : String
deriving DecidableEq, Repr

/-- The common body of the dispatch methods: load the snapshot at slot
`L.Levels[0]` with one atomic load and call `WriteLevel` with `L.Name`
on every writer in it.  Returns the deliveries in snapshot order. -/
def dispatchAt {W : Type} (s : log_t W) (L : level_name_t) (msg : String) :
    List (Delivery W) :=
  (s.out L.Levels.headI).map (fun kv => { writer := kv.2, level := L.Name, msg := msg })

/-- `func (self *log_t) Trace(format string, args ...any)` -/
def log_t.Trace {W : Type} (s : log_t W) (msg : String) : List (Delivery W) :=
  dispatchAt s LOG_TRACE msg

/-- `func (self *log_t) Debug(format string, args ...any)` -/
def log_t.Debug {W : Type} (s : log_t W) (msg : String) : List (Delivery W) :=
  dispatchAt s LOG_DEBUG msg

/-- `func (self *log_t) Info(format string, args ...any)` -/
def log_t.Info {W : Type} (s : log_t W) (msg : String) : List (Delivery W) :=
  dispatchAt s LOG_INFO msg

/-- `func (self *log_t) Warn(format string, args ...any)` -/
def log_t.Warn {W : Type} (s : log_t W) (msg : String) : List (Delivery W) :=
  dispatchAt s LOG_WARN msg

/-- `func (self *log_t) Error(format string, args ...any)` -/
def log_t.Error {W : Type} (s : log_t W) (msg : String) : List (Delivery W) :=
  dispatchAt s LOG_ERROR msg

/-! ## Association-list map lemmas -/

theorem wlookup_nil {W : Type} (k : String) : wlookup ([] : writers_t W) k = none := rfl

theorem wlookup_cons_of_eq {W : Type} (kv : String × W) (t : writers_t W) (k : String)
    (h : (kv.1 == k) = true) : wlookup (kv :: t) k = some kv.2 := by
  simp [wlookup, List.find?, h]

theorem wlookup_cons_of_ne {W : Type} (kv : String × W) (t : writers_t W) (k : String)
    (h : (kv.1 == k) = false) : wlookup (kv :: t) k = wlookup t k := by
  simp [wlookup, List.find?, h]

theorem wlookup_append {W : Type} (l1 l2 : writers_t W) (k : String) :
    wlookup (l1 ++ l2) k = ((wlookup l1 k).orElse (fun _ => wlookup l2 k)) := by
  induction l1 with
  | nil => rfl
  | cons kv t ih =>
    by_cases h : (kv.1 == k) = true
    · rw [List.cons_append, wlookup_cons_of_eq kv (t ++ l2) k h, wlookup_cons_of_eq kv t k h]
      rfl
    · have h' : (kv.1 == k) = false := by simpa using h
      rw [List.cons_append, wlookup_cons_of_ne kv (t ++ l2) k h', wlookup_cons_of_ne kv t k h']
      exact ih

theorem wlookup_filter_self {W : Type} (m : writers_t W) (name : String) :
    wlookup (m.filter (fun kv => kv.1 != name)) name = none := by
  induction m with
  | nil => rfl
  | cons kv t ih =>
    by_cases h : kv.1 = name
    · have hb : (kv.1 != name) = false := by simp [h]
      rw [List.filter_cons]
      simpa [hb] using ih
    · have hbe : (kv.1 == name) = false := by simpa using h
      have hb : (kv.1 != name) = true := by simp [bne, hbe]
      rw [List.filter_cons]
      simp only [hb, if_true]
      rw [wlookup_cons_of_ne kv _ name hbe]
      exact ih

theorem wlookup_filter_ne {W : Type} (m : writers_t W) (name k : String) (hk : k ≠ name) :
    wlookup (m.filter (fun kv => kv.1 != name)) k = wlookup m k := by
  induction m with
  | nil => rfl
  | cons kv t ih =>
    by_cases h : kv.1 = name
    · have hb : (kv.1 != name) = false := by simp [h]
      have hbe : (kv.1 == k) = false := by
        refine beq_eq_false_iff_ne.mpr ?_
        rw [h]
        exact fun hc => hk hc.symm
      rw [List.filter_cons]
      simp only [hb, Bool.false_eq_true, if_false]
      rw [wlookup_cons_of_ne kv t k hbe]
      exact ih
    · have hbe : (kv.1 == name) = false := by simpa using h
      have hb : (kv.1 != name) = true := by simp [bne, hbe]
      rw [List.filter_cons]
      simp only [hb, if_true]
      by_cases h2 : (kv.1 == k) = true
      · rw [wlookup_cons_of_eq kv _ k h2, wlookup_cons_of_eq kv t k h2]
      · have h2' : (kv.1 == k) = false := by simpa using h2
        rw [wlookup_cons_of_ne kv _ k h2', wlookup_cons_of_ne kv t k h2']
        exact ih

theorem del_output_found {W : Type} (m : writers_t W) (name : String) :
    (del_output m name).2 = (wlookup m name).toList := by
  rcases h : wlookup m name with _ | w <;> simp [del_output, h]

/-! ## C1 — WARN-threshold sink receives exactly WARN and ERROR -/

/-- C1: for a sink registered under the WARN threshold level set
(`LOG_WARN.Levels = [3, 4]`), dispatching one record at each of TRACE,
DEBUG, INFO, WARN, ERROR in that order delivers exactly the WARN and the
ERROR record to that sink's `WriteLevel`, in that relative order, and
delivers the TRACE, DEBUG and INFO records to it zero times. -/
theorem C1_warn_threshold_delivery {W : Type} (w : W) (name : String)
    (m1 m2 m3 m4 m5 : String) :
    (((NewEmpty W).AddOutput name w LOG_WARN.Levels).Trace m1
      ++ ((NewEmpty W).AddOutput name w LOG_WARN.Levels).Debug m2
      ++ ((NewEmpty W).AddOutput name w LOG_WARN.Levels).Info m3
      ++ ((NewEmpty W).AddOutput name w LOG_WARN.Levels).Warn m4
      ++ ((NewEmpty W).AddOutput name w LOG_WARN.Levels).Error m5
      = [{ writer := w, level := "WARN", msg := m4 },
         { writer := w, level := "ERROR", msg := m5 }])
    ∧ ((NewEmpty W).AddOutput name w LOG_WARN.Levels).Trace m1 = []
    ∧ ((NewEmpty W).AddOutput name w LOG_WARN.Levels).Debug m2 = []
    ∧ ((NewEmpty W).AddOutput name w LOG_WARN.Levels).Info m3 = [] := by
  refine ⟨rfl, rfl, rfl, rfl⟩

/-! ## C3 — copy-on-write registration updates -/

/-- C3: for every published per-level mapping `m`, `add_output`
publishes a new mapping equal to `m` with `name` bound to `writer` and
every other entry unchanged, and `del_output` publishes a new mapping
equal to `m` with the entry for `name` removed and every other entry
unchanged.  The previously published mapping `m` is a pure value in this
embedding, so it is never mutated in place — the update builds a fresh
mapping that the CAS publishes. -/
theorem C3_copy_on_write_updates {W : Type} (m : writers_t W) (name k : String) (w : W) :
    wlookup (add_output m name w) name = some w
    ∧ (k ≠ name → wlookup (add_output m name w) k = wlookup m k)
    ∧ wlookup (del_output m name).1 name = none
    ∧ (k ≠ name → wlookup (del_output m name).1 k = wlookup m k) := by
  refine ⟨?_, ?_, ?_, ?_⟩
  · rw [add_output, wlookup_append, wlookup_filter_self]
    simp [wlookup, List.find?]
  · intro hk
    rw [add_output, wlookup_append, wlookup_filter_ne m name k hk]
    rcases h : wlookup m k with _ | v
    · simp [wlookup, List.find?, show (name == k) = false by simpa using fun hc => hk hc.symm]
    · simp
  · exact wlookup_filter_self m name
  · intro hk
    exact wlookup_filter_ne m name k hk

/-- Witness for C3 at a concrete mapping: the frame conditions hold for
the mapping `[("a", 1)]`, the updated name `"b"` and the other key `"a"`. -/
theorem C3_copy_on_write_updates_witness :
    wlookup (add_output [("a", (1 : Nat))] "b" 2) "a" = wlookup [("a", (1 : Nat))] "a"
    ∧ wlookup (del_output [("a", (1 : Nat))] "b").1 "a" = wlookup [("a", (1 : Nat))] "a" :=
  ⟨(C3_copy_on_write_updates [("a", (1 : Nat))] "b" "a" 2).2.1 (by decide),
   (C3_copy_on_write_updates [("a", (1 : Nat))] "b" "a" 2).2.2.2 (by decide)⟩

/-! ## C2 — DelOutput close behaviour -/

theorem del_output_fst {W : Type} (m : writers_t W) (name : String) :
    (del_output m name).1 = m.filter (fun kv => kv.1 != name) := rfl

/-- C2 counterexample: a writer registered under one name at the two
WARN slots (3 and 4) has `Close()` invoked twice by `DelOutput`, not
exactly once — one `Close()` per slot in which the name was found. -/
theorem C2_close_exactly_once_counterexample :
    ¬ ((((NewEmpty Nat).AddOutput "x" 0 LOG_WARN.Levels).DelOutput "x").closed.length = 1) := by
  decide

/-- C2 amended: `DelOutput name` removes the writer registered under
`name` from every severity-level snapshot, and invokes that writer's
`Close()` once per slot in which the name was bound (so a writer
registered at k levels is closed k times, not exactly once); each
`Close()` is performed immediately after the CAS publishing that slot's
removal, hence after the removal is visible in that slot's published
snapshot — but a `Close()` for an earlier slot may precede the removal
from later slots. -/
theorem C2_del_output_close_per_slot {W : Type} (s : log_t W) (name : String) :
    (∀ i : Fin 5, wlookup ((s.DelOutput name).out i) name = none)
    ∧ (s.DelOutput name).closed
        = s.closed ++ (allSlots.map (fun i => (wlookup (s.out i) name).toList)).flatten
    ∧ s.DelOutputTrace name
        = allSlots.flatMap (fun i =>
            DelEvent.publish i ((s.out i).filter (fun kv => kv.1 != name))
              :: ((wlookup (s.out i) name).toList.map DelEvent.close)) := by
  refine ⟨?_, ?_, ?_⟩
  · intro i
    fin_cases i
    · exact wlookup_filter_self (s.out 0) name
    · exact wlookup_filter_self (s.out 1) name
    · exact wlookup_filter_self (s.out 2) name
    · exact wlookup_filter_self (s.out 3) name
    · exact wlookup_filter_self (s.out 4) name
  · simp only [log_t.DelOutput, allSlots, List.foldl, List.map, List.flatten, del_output_found]
    simp [List.append_assoc]
  · simp only [log_t.DelOutputTrace, allSlots, List.foldl, del_output_fst, del_output_found,
      List.flatMap_cons, List.flatMap_nil]
    simp [List.append_assoc]

/-! ## C10 — Clear empties every snapshot but closes nothing -/

/-- C10: `Clear()` replaces every severity level's published snapshot
with an empty mapping, so a subsequent dispatch at any level delivers to
no writer, and — unlike `DelOutput` — it performs no `Close()` call: the
close log is unchanged. -/
theorem C10_clear_empties_without_close {W : Type} (s : log_t W) (i : Fin 5)
    (L : level_name_t) (msg : String) :
    s.Clear.out i = [] ∧ dispatchAt s.Clear L msg = [] ∧ s.Clear.closed = s.closed :=
  ⟨rfl, rfl, rfl⟩

/-! ## C4 — WhatLevel threshold-to-level mapping (`setup.go`) -/

/-- `setup.go`'s `Level_t`: the severity-level descriptor consumed by
the newer `AddOutput` API; it carries the same data as `level_name_t`. -/
abbrev Level_t := level_name_t

/-- `func WhatLevel(in int64) []Level_t` — the switch in `setup.go`:
cases 4, 3, 2, 1 and a default returning all five levels. -/
def WhatLevel (t : Int) : List Level_t :=
  if t = 4 then [LOG_ERROR]
  else if t = 3 then [LOG_ERROR, LOG_WARN]
  else if t = 2 then [LOG_ERROR, LOG_WARN, LOG_INFO]
  else if t = 1 then [LOG_ERROR, LOG_WARN, LOG_INFO, LOG_DEBUG]
  else [LOG_ERROR, LOG_WARN, LOG_INFO, LOG_DEBUG, LOG_TRACE]

/-- The five severity levels in increasing severity order. -/
def allLevels : List level_name_t := [LOG_TRACE, LOG_DEBUG, LOG_INFO, LOG_WARN, LOG_ERROR]

/-- The numeric severity of a level: its first dispatch slot
(`Levels[0]`), giving TRACE 0, DEBUG 1, INFO 2, WARN 3, ERROR 4. -/
def severity (L : level_name_t) : Int := (L.Levels.headI : Fin 5).val

/-- C4 counterexample: the claim quantifies over every int64 input, but
`WhatLevel`'s default branch returns all five levels for any input
outside 1..4 — at T = 5, `LOG_TRACE` (severity 0 < 5) is a member, so
`WhatLevel 5` is not exactly the levels of severity ≥ 5. -/
theorem C4_whatlevel_counterexample :
    ¬ (∀ (t : Int) (L : level_name_t), L ∈ allLevels → (L ∈ WhatLevel t ↔ t ≤ severity L)) := by
  intro h
  have h5 : (5 : Int) ≤ severity LOG_TRACE := (h 5 LOG_TRACE (by decide)).mp (by decide)
  have h0 : severity LOG_TRACE = 0 := rfl
  omega

/-- C4 amended: for every threshold `T ≤ 4` (ERROR's severity),
`WhatLevel T` contains exactly the severity levels ≥ T and no level
< T; and for every input `T` whatsoever, `LOG_ERROR` is a member of
`WhatLevel T` (ERROR is the most restrictive membership, TRACE the
least).  Inputs above 4 fall into the default branch and also receive
all five levels. -/
theorem C4_whatlevel_amended (t : Int) (L : level_name_t) (hL : L ∈ allLevels) :
    (t ≤ 4 → (L ∈ WhatLevel t ↔ t ≤ severity L)) ∧ LOG_ERROR ∈ WhatLevel t := by
  have hcases : L = LOG_TRACE ∨ L = LOG_DEBUG ∨ L = LOG_INFO ∨ L = LOG_WARN ∨ L = LOG_ERROR := by
    simpa [allLevels] using hL
  constructor
  · intro ht
    by_cases h4 : t = 4
    · subst h4
      rcases hcases with rfl | rfl | rfl | rfl | rfl <;> decide
    · by_cases h3 : t = 3
      · subst h3
        rcases hcases with rfl | rfl | rfl | rfl | rfl <;> decide
      · by_cases h2 : t = 2
        · subst h2
          rcases hcases with rfl | rfl | rfl | rfl | rfl <;> decide
        · by_cases h1 : t = 1
          · subst h1
            rcases hcases with rfl | rfl | rfl | rfl | rfl <;> decide
          · have ht0 : t ≤ 0 := by omega
            simp only [WhatLevel, if_neg h4, if_neg h3, if_neg h2, if_neg h1]
            rcases hcases with rfl | rfl | rfl | rfl | rfl <;>
              exact iff_of_true (by decide) (le_trans ht0 (by decide))
  · by_cases h4 : t = 4
    · subst h4; decide
    · by_cases h3 : t = 3
      · subst h3; decide
      · by_cases h2 : t = 2
        · subst h2; decide
        · by_cases h1 : t = 1
          · subst h1; decide
          · simp only [WhatLevel, if_neg h4, if_neg h3, if_neg h2, if_neg h1]
            decide

/-- Witness for C4 at threshold 2 and level WARN: `LOG_WARN` is in
`WhatLevel 2` and its severity 3 is ≥ 2; `LOG_ERROR` is in `WhatLevel 2`. -/
theorem C4_whatlevel_amended_witness :
    (LOG_WARN ∈ WhatLevel 2 ↔ (2 : Int) ≤ severity LOG_WARN) ∧ LOG_ERROR ∈ WhatLevel 2 :=
  ⟨(C4_whatlevel_amended 2 LOG_WARN (by decide)).1 (by decide),
   (C4_whatlevel_amended 2 LOG_WARN (by decide)).2⟩

/-! ## C5 — snapshot atomicity of concurrent dispatch -/

/-- One atomic action on the registry's shared slot pointers, in a
sequentially consistent interleaving of concurrent callers: the
successful CAS of `add_output` / `del_output` at one slot, or `Clear`'s
atomic store of a fresh empty map at one slot.  A dispatch performs no
action — it is a single atomic load of one slot. -/
inductive RegAct (W : Type) where
  | addSlot (i : level_t) (name : String) (w : W)
  | delSlot (i : level_t) (name : String)
  | clearSlot (i : level_t)

/-- Effect of one atomic registry action on the published slot maps. -/
def regStep {W : Type} (out : Fin 5 → writers_t W) : RegAct W → (Fin 5 → writers_t W)
  | .addSlot i name w => Function.update out i (add_output (out i) name w)
  | .delSlot i name => Function.update out i (del_output (out i) name).1
  | .clearSlot i => Function.update out i []

/-- The published slot maps after an interleaved sequence of atomic
registry actions. -/
def regRun {W : Type} (out0 : Fin 5 → writers_t W) (acts : List (RegAct W)) :
    Fin 5 → writers_t W :=
  acts.foldl regStep out0

/-- All mappings that were, at some real point of the execution, the
published snapshot of slot `i`: the value after each prefix of the
action sequence. -/
def slotHistory {W : Type} (out0 : Fin 5 → writers_t W) (acts : List (RegAct W))
    (i : Fin 5) : List (writers_t W) :=
  (List.range (acts.length + 1)).map (fun n => regRun out0 (acts.take n) i)

/-- C5: in any sequentially consistent interleaving of register /
unregister / clear actions with dispatches, a dispatch whose single
atomic load happens after `j` of the actions observes, and fans the
record out over, one complete mapping that was the published snapshot of
its level's slot at a real point of the execution — never a mixture of
pre-update and post-update state. -/
theorem C5_dispatch_snapshot_atomicity {W : Type} (out0 : Fin 5 → writers_t W)
    (acts : List (RegAct W)) (j : Nat) (L : level_name_t) (msg : String)
    (hj : j ≤ acts.length) :
    ∃ m ∈ slotHistory out0 acts L.Levels.headI,
      dispatchAt { out := regRun out0 (acts.take j), closed := [] } L msg
        = m.map (fun kv => { writer := kv.2, level := L.Name, msg := msg }) := by
  refine ⟨regRun out0 (acts.take j) L.Levels.headI, ?_, rfl⟩
  exact List.mem_map.mpr ⟨j, List.mem_range.mpr (Nat.lt_succ_of_le hj), rfl⟩

/-- Witness for C5: a dispatch at WARN interleaved after the single
registration action observes the published one-entry snapshot. -/
theorem C5_dispatch_snapshot_atomicity_witness :
    ∃ m ∈ slotHistory (fun _ => ([] : writers_t Nat)) [RegAct.addSlot 3 "a" 0] LOG_WARN.Levels.headI,
      dispatchAt { out := regRun (fun _ => ([] : writers_t Nat)) ([RegAct.addSlot 3 "a" 0].take 1),
                   closed := [] } LOG_WARN "m"
        = m.map (fun kv => { writer := kv.2, level := LOG_WARN.Name, msg := "m" }) :=
  C5_dispatch_snapshot_atomicity (fun _ => []) [RegAct.addSlot 3 "a" 0] 1 LOG_WARN "m"
    (by decide)

/-! ## C7 — the formatter chain (`DT_t`, `FileLine_t`, `GetLogContext_t`)

The three formatters render into a shared buffer.  External collaborators
(`time.Time.AppendFormat`, `filepath.Base`, `ContextName()`) are
abstracted as function parameters; the record type `LogMsg_t` carries the
fields the formatters read. -/

/-- The record passed to `FormatLog`: timestamp (`m.Level.Ts`), call
site (`m.Level.File` / `m.Level.Line`), correlation context (`m.Ctx`,
already looked up: `none` when `GetLogContext` returns nil). -/
structure LogMsg_t (T C : Type) where
  ts : T
  file : String
  line : Int
  ctx : Option C

/-- `type DT_t struct { Layout string }` -/
structure DT_t where
  Layout : String

/-- `DT_t.FormatLog`: writes the timestamp rendered with `self.Layout`
(`fmtTime` abstracts `AppendFormat`), then one space iff it wrote
anything (`if n > 0`). -/
def DT_t.FormatLog {T C : Type} (fmtTime : String → T → String) (self : DT_t)
    (m : LogMsg_t T C) : String :=
  let s := fmtTime self.Layout m.ts
  if s = "" then "" else s ++ " "

/-- `FileLine_t.FormatLog`: writes `filepath.Base(m.Level.File)` (`base`
abstracts `filepath.Base`), and iff that wrote anything, `":"`, the
decimal line number and one space. -/
def FileLine_t.FormatLog {T C : Type} (base : String → String) (m : LogMsg_t T C) : String :=
  if base m.file = "" then "" else base m.file ++ ":" ++ toString m.line ++ " "

/-- `GetLogContext_t.FormatLog`: when the record's context is present,
writes its `ContextName()` (`ctxName`), then one space iff it wrote
anything; absent context emits nothing. -/
def GetLogContext_t.FormatLog {T C : Type} (ctxName : C → String) (m : LogMsg_t T C) : String :=
  match m.ctx with
  | some v => if ctxName v = "" then "" else ctxName v ++ " "
  | none => ""

/-- The formatter chain loop `for _, v := range formatters
{ v.FormatLog(&temp, m) }`: each formatter appends to the shared buffer
in list order. -/
def chainFormat {T C : Type} (fs : List (LogMsg_t T C → String)) (m : LogMsg_t T C) : String :=
  fs.foldl (fun acc f => acc ++ f m) ""

/-- The payload `DT_t` contributes, `none` when it emits nothing. -/
def DT_output {T C : Type} (fmtTime : String → T → String) (self : DT_t)
    (m : LogMsg_t T C) : Option String :=
  if fmtTime self.Layout m.ts = "" then none else some (fmtTime self.Layout m.ts)

/-- The payload `FileLine_t` contributes, `none` when it emits nothing. -/
def FileLine_output {T C : Type} (base : String → String) (m : LogMsg_t T C) : Option String :=
  if base m.file = "" then none else some (base m.file ++ ":" ++ toString m.line)

/-- The payload `GetLogContext_t` contributes, `none` when it emits
nothing. -/
def Ctx_output {T C : Type} (ctxName : C → String) (m : LogMsg_t T C) : Option String :=
  match m.ctx with
  | some v => if ctxName v = "" then none else some (ctxName v)
  | none => none

/-- Non-empty outputs joined with exactly one single-space delimiter
between consecutive outputs. -/
def sepConcat : List String → String
  | [] => ""
  | [p] => p
  | p :: q :: rest => p ++ " " ++ sepConcat (q :: rest)

/-- The buffer produced by a list of payload blocks, each non-`none`
payload followed by the single delimiter. -/
def blocksConcat : List (Option String) → String
  | [] => ""
  | none :: t => blocksConcat t
  | some p :: t => p ++ " " ++ blocksConcat t

theorem blocksConcat_sep : ∀ os : List (Option String),
    blocksConcat os
      = sepConcat (os.filterMap id) ++ (if os.filterMap id = [] then "" else " ") := by
  intro os
  induction os with
  | nil => rfl
  | cons o t ih =>
    cases o with
    | none => simpa [blocksConcat] using ih
    | some p =>
      have hfm : (some p :: t).filterMap id = p :: t.filterMap id := by simp
      rw [blocksConcat, ih, hfm]
      rcases h : t.filterMap id with _ | ⟨q, t2⟩
      · simp [h, sepConcat, String.append_empty, String.append_assoc]
      · rw [if_neg (by simp : ¬(q :: t2 = [])), if_neg (by simp : ¬(p :: q :: t2 = []))]
        rw [sepConcat]
        simp [String.append_assoc]

/-- C7: the chain `[DT_t, FileLine_t, GetLogContext_t]` writes each
formatter's output into the destination buffer in list order, and the
non-empty outputs are separated from one another by exactly one single
space delimiter; a formatter that emits nothing contributes no delimiter
(the final non-empty output is also followed by one trailing delimiter,
as every non-empty output writes its own separator). -/
theorem C7_formatter_chain_delimiters {T C : Type}
    (fmtTime : String → T → String) (base : String → String) (ctxName : C → String)
    (self : DT_t) (m : LogMsg_t T C) :
    chainFormat [DT_t.FormatLog fmtTime self, FileLine_t.FormatLog base,
        GetLogContext_t.FormatLog ctxName] m
      = sepConcat ([DT_output fmtTime self m, FileLine_output base m,
            Ctx_output ctxName m].filterMap id)
        ++ (if [DT_output fmtTime self m, FileLine_output base m,
              Ctx_output ctxName m].filterMap id = [] then "" else " ") := by
  rw [← blocksConcat_sep]
  show "" ++ DT_t.FormatLog fmtTime self m ++ FileLine_t.FormatLog base m
      ++ GetLogContext_t.FormatLog ctxName m = _
  rcases hc : m.ctx with _ | v <;>
    simp only [DT_t.FormatLog, FileLine_t.FormatLog, GetLogContext_t.FormatLog,
      DT_output, FileLine_output, Ctx_output, hc, String.empty_append]
  · by_cases h1 : fmtTime self.Layout m.ts = "" <;>
      by_cases h2 : base m.file = "" <;>
        simp [h1, h2, blocksConcat, String.append_assoc, String.append_empty,
          String.empty_append]
  · by_cases h1 : fmtTime self.Layout m.ts = "" <;>
      by_cases h2 : base m.file = "" <;>
        by_cases h3 : ctxName v = "" <;>
          simp [h1, h2, h3, blocksConcat, String.append_assoc, String.append_empty,
            String.empty_append]

/-! ## C8 — the process-wide default logger (`std` / `__std`, `SetLogger`) -/

/-- The dispatch slots addressed by a `[]Level_t` argument of the
registration API: each level's first slot `Levels[0]`; for a `WhatLevel`
result this enumerates exactly the slots ≥ the threshold. -/
def levelSlots (ls : List Level_t) : List level_t :=
  ls.map (fun L => L.Levels.headI)

/-- Modelled from the spec: the package-level `std` variable holding the
single globally reachable default logger instance (its declaration is
not under src; `logger.go`'s free functions read it and `SetLogger`
assigns it). -/
structure GlobalStd (W : Type) where
  std : log_t W

/-- `var __std = New().AddOutput("stderr", NewStdany([]Formatter{...},
os.Stderr), WhatLevel(0))` — the initial default logger.  Modelled from
the spec where src is silent: `New()` yields an empty logger
(`NewEmpty`), and `NewStdany(..., os.Stderr)` is an abstract console
writer `stderrWriter`; `WhatLevel 0` registers it at every severity
level. -/
def initialStd {W : Type} (stderrWriter : W) : GlobalStd W :=
  { std := (NewEmpty W).AddOutput "stderr" stderrWriter (levelSlots (WhatLevel 0)) }

/-- `func SetLogger(logger Logger)` — `std = logger`. -/
def SetLogger {W : Type} (_g : GlobalStd W) (logger : log_t W) : GlobalStd W :=
  { std := logger }

/-- `func GetLogger() Logger` — returns `std`. -/
def GetLogger {W : Type} (g : GlobalStd W) : log_t W :=
  g.std

/-- `func Error(format string, args ...any) { std.Error(format, args...) }` -/
def stdError {W : Type} (g : GlobalStd W) (msg : String) : List (Delivery W) :=
  g.std.Error msg

/-- `func Warn(...)` — forwards to `std.Warn`. -/
def stdWarn {W : Type} (g : GlobalStd W) (msg : String) : List (Delivery W) :=
  g.std.Warn msg

/-- `func Info(...)` — forwards to `std.Info`. -/
def stdInfo {W : Type} (g : GlobalStd W) (msg : String) : List (Delivery W) :=
  g.std.Info msg

/-- `func Debug(...)` — forwards to `std.Debug`. -/
def stdDebug {W : Type} (g : GlobalStd W) (msg : String) : List (Delivery W) :=
  g.std.Debug msg

/-- `func Trace(...)` — forwards to `std.Trace`. -/
def stdTrace {W : Type} (g : GlobalStd W) (msg : String) : List (Delivery W) :=
  g.std.Trace msg

/-- `func ErrorCtx(ctx, ...)` — forwards to `std.ErrorCtx`; the context
is passed through to `WriteLevel` and does not affect dispatch. -/
def stdErrorCtx {W Γ : Type} (g : GlobalStd W) (_ctx : Γ) (msg : String) : List (Delivery W) :=
  g.std.Error msg

/-- `func WarnCtx(ctx, ...)` — forwards to `std.WarnCtx`. -/
def stdWarnCtx {W Γ : Type} (g : GlobalStd W) (_ctx : Γ) (msg : String) : List (Delivery W) :=
  g.std.Warn msg

/-- `func InfoCtx(ctx, ...)` — forwards to `std.InfoCtx`. -/
def stdInfoCtx {W Γ : Type} (g : GlobalStd W) (_ctx : Γ) (msg : String) : List (Delivery W) :=
  g.std.Info msg

/-- `func DebugCtx(ctx, ...)` — forwards to `std.DebugCtx`. -/
def stdDebugCtx {W Γ : Type} (g : GlobalStd W) (_ctx : Γ) (msg : String) : List (Delivery W) :=
  g.std.Debug msg

/-- `func TraceCtx(ctx, ...)` — forwards to `std.TraceCtx`. -/
def stdTraceCtx {W Γ : Type} (g : GlobalStd W) (_ctx : Γ) (msg : String) : List (Delivery W) :=
  g.std.Trace msg

/-- C8: the default logger is initialized with the console (stderr)
writer registered under `"stderr"` at every severity level (the
least-restrictive threshold, `WhatLevel 0`); `SetLogger` replaces the
instance at any time; and every free-function-style log call (`Error`,
`Warn`, `Info`, `Debug`, `Trace` and their `Ctx` variants) forwards to
the current instance's corresponding method. -/
theorem C8_default_logger {W Γ : Type} (stderrWriter : W) (g : GlobalStd W)
    (logger : log_t W) (msg : String) (ctx : Γ) (i : Fin 5) :
    wlookup ((initialStd stderrWriter).std.out i) "stderr" = some stderrWriter
    ∧ SetLogger g logger = { std := logger }
    ∧ GetLogger g = g.std
    ∧ stdError g msg = g.std.Error msg
    ∧ stdWarn g msg = g.std.Warn msg
    ∧ stdInfo g msg = g.std.Info msg
    ∧ stdDebug g msg = g.std.Debug msg
    ∧ stdTrace g msg = g.std.Trace msg
    ∧ stdErrorCtx g ctx msg = g.std.Error msg
    ∧ stdWarnCtx g ctx msg = g.std.Warn msg
    ∧ stdInfoCtx g ctx msg = g.std.Info msg
    ∧ stdDebugCtx g ctx msg = g.std.Debug msg
    ∧ stdTraceCtx g ctx msg = g.std.Trace msg := by
  refine ⟨?_, rfl, rfl, rfl, rfl, rfl, rfl, rfl, rfl, rfl, rfl, rfl, rfl⟩
  fin_cases i <;> rfl

/-! ## C9 — SetupLogger skips sinks that fail to construct

`SetupLogger` iterates the config records; for the four file kinds it
runs the sink constructor (`NewFileBytes` / `NewFileBytesQueue` /
`NewFileTime` / `NewFileTimeQueue`, not under src — modelled as an
outcome oracle `mk`) and on error writes a `LOG ERROR` line to `Stderr`
(the fallback channel, collected here as a report list) and registers
nothing; on success, and for the console kinds, it registers the sink. -/

/-- `Args_t` — the per-sink YAML config record of `setup.go` (the fields
`SetupLogger`'s control flow reads; the remaining fields only
parametrize the constructors, which the oracle abstracts). -/
structure Args_t where
  LogType : String
  LogFile : String
  LogLevel : Int

/-- The Go predicate selecting the `switch` cases that run a fallible
file-sink constructor. -/
def isFileKind (v : Args_t) : Prop :=
  v.LogType = "file" ∨ v.LogType = "filequeue"
    ∨ v.LogType = "filetime" ∨ v.LogType = "filetimequeue"

instance (v : Args_t) : Decidable (isFileKind v) := by
  unfold isFileKind
  infer_instance

/-- One iteration of `SetupLogger`'s registration loop on the
accumulated (logger, fallback reports) pair. -/
def setupStep {W : Type} (mk : Args_t → Except String W) (stdoutW stderrW : Args_t → W)
    (acc : log_t W × List String) (v : Args_t) : log_t W × List String :=
  if isFileKind v then
    match mk v with
    | .error e => (acc.1, acc.2 ++ [e])
    | .ok w => (acc.1.AddOutput v.LogFile w (levelSlots (WhatLevel v.LogLevel)), acc.2)
  else if v.LogType = "stdout" ∨ v.LogType = "stdoutqueue" then
    (acc.1.AddOutput "stdout" (stdoutW v) (levelSlots (WhatLevel v.LogLevel)), acc.2)
  else if v.LogType = "stderr" ∨ v.LogType = "stderrqueue" then
    (acc.1.AddOutput "stderr" (stderrW v) (levelSlots (WhatLevel v.LogLevel)), acc.2)
  else acc

/-- `func SetupLogger(ts time.Time, logs []Args_t) (err error)` — starts
from a fresh logger (`SetLogger(New())`) and folds the registration loop
over the config records; returns the logger and the fallback-channel
reports.  (The trailing `Debug("LOG OUTPUT: …")` loop only dispatches
records and registers nothing.) -/
def SetupLogger {W : Type} (mk : Args_t → Except String W) (stdoutW stderrW : Args_t → W)
    (logs : List Args_t) : log_t W × List String :=
  logs.foldl (setupStep mk stdoutW stderrW) (NewEmpty W, [])

/-- The logger-state effect of one config record, ignoring reports. -/
def setupState {W : Type} (mk : Args_t → Except String W) (stdoutW stderrW : Args_t → W)
    (s : log_t W) (v : Args_t) : log_t W :=
  if isFileKind v then
    match mk v with
    | .error _ => s
    | .ok w => s.AddOutput v.LogFile w (levelSlots (WhatLevel v.LogLevel))
  else if v.LogType = "stdout" ∨ v.LogType = "stdoutqueue" then
    s.AddOutput "stdout" (stdoutW v) (levelSlots (WhatLevel v.LogLevel))
  else if v.LogType = "stderr" ∨ v.LogType = "stderrqueue" then
    s.AddOutput "stderr" (stderrW v) (levelSlots (WhatLevel v.LogLevel))
  else s

/-- The fallback-channel report one config record emits (at most one). -/
def setupReport {W : Type} (mk : Args_t → Except String W) (v : Args_t) : List String :=
  if isFileKind v then
    match mk v with
    | .error e => [e]
    | .ok _ => []
  else []

theorem setupStep_eq {W : Type} (mk : Args_t → Except String W)
    (stdoutW stderrW : Args_t → W) (acc : log_t W × List String) (v : Args_t) :
    setupStep mk stdoutW stderrW acc v
      = (setupState mk stdoutW stderrW acc.1 v, acc.2 ++ setupReport mk v) := by
  rw [setupStep, setupState, setupReport]
  by_cases h : isFileKind v
  · rw [if_pos h, if_pos h, if_pos h]
    rcases hmk : mk v with e | w <;> simp [hmk]
  · rw [if_neg h, if_neg h, if_neg h]
    split_ifs <;> simp

theorem setup_fold_decomp {W : Type} (mk : Args_t → Except String W)
    (stdoutW stderrW : Args_t → W) :
    ∀ (l : List Args_t) (s : log_t W) (r : List String),
      l.foldl (setupStep mk stdoutW stderrW) (s, r)
        = (l.foldl (setupState mk stdoutW stderrW) s,
           r ++ (l.map (setupReport mk)).flatten) := by
  intro l
  induction l with
  | nil => intro s r; simp
  | cons v t ih =>
    intro s r
    rw [List.foldl_cons, List.foldl_cons, setupStep_eq]
    rw [ih]
    simp [List.append_assoc]

/-- C9: when a file sink's constructor fails during `SetupLogger`, the
failure is reported to the fallback channel at its position, that sink is
never added to the logger, and the construction and registration of
every other configured sink proceeds exactly as if the failing record
were absent. -/
theorem C9_setup_skips_failed_sink {W : Type} (mk : Args_t → Except String W)
    (stdoutW stderrW : Args_t → W) (pre post : List Args_t) (v : Args_t) (e : String)
    (hkind : isFileKind v) (he : mk v = .error e) :
    (SetupLogger mk stdoutW stderrW (pre ++ v :: post)).1
        = (SetupLogger mk stdoutW stderrW (pre ++ post)).1
    ∧ (SetupLogger mk stdoutW stderrW (pre ++ v :: post)).2
        = (SetupLogger mk stdoutW stderrW pre).2
            ++ e :: (SetupLogger mk stdoutW stderrW post).2 := by
  have hstate : ∀ s : log_t W, setupState mk stdoutW stderrW s v = s := by
    intro s
    rw [setupState, if_pos hkind, he]
  have hrep : setupReport mk v = [e] := by
    rw [setupReport, if_pos hkind, he]
  unfold SetupLogger
  rw [setup_fold_decomp, setup_fold_decomp, setup_fold_decomp, setup_fold_decomp]
  constructor
  · simp only [List.foldl_append, List.foldl_cons, hstate]
  · simp [hrep, List.append_assoc]

/-- Witness for C9: with one failing file record between two succeeding
console records, the resulting logger equals the one built without the
failing record and the error lands in the reports. -/
theorem C9_setup_skips_failed_sink_witness :
    ((SetupLogger (fun _ => Except.error "no such file") (fun _ => (1 : Nat)) (fun _ => 2)
        ([{ LogType := "stdout", LogFile := "", LogLevel := 0 }]
          ++ { LogType := "file", LogFile := "a.log", LogLevel := 0 }
            :: [{ LogType := "stderr", LogFile := "", LogLevel := 0 }])).1
      = (SetupLogger (fun _ => Except.error "no such file") (fun _ => (1 : Nat)) (fun _ => 2)
          ([{ LogType := "stdout", LogFile := "", LogLevel := 0 }]
            ++ [{ LogType := "stderr", LogFile := "", LogLevel := 0 }])).1)
    ∧ ((SetupLogger (fun _ => Except.error "no such file") (fun _ => (1 : Nat)) (fun _ => 2)
        ([{ LogType := "stdout", LogFile := "", LogLevel := 0 }]
          ++ { LogType := "file", LogFile := "a.log", LogLevel := 0 }
            :: [{ LogType := "stderr", LogFile := "", LogLevel := 0 }])).2
      = (SetupLogger (fun _ => Except.error "no such file") (fun _ => (1 : Nat)) (fun _ => 2)
          [{ LogType := "stdout", LogFile := "", LogLevel := 0 }]).2
        ++ "no such file"
          :: (SetupLogger (fun _ => Except.error "no such file") (fun _ => (1 : Nat)) (fun _ => 2)
              [{ LogType := "stderr", LogFile := "", LogLevel := 0 }]).2) :=
  C9_setup_skips_failed_sink (fun _ => Except.error "no such file") (fun _ => 1) (fun _ => 2)
    [{ LogType := "stdout", LogFile := "", LogLevel := 0 }]
    [{ LogType := "stderr", LogFile := "", LogLevel := 0 }]
    { LogType := "file", LogFile := "a.log", LogLevel := 0 } "no such file"
    (Or.inl rfl) rfl

/-! ## C6 — MessageTG_t.FormatLog truncation at UTF-8 boundaries

`MessageTG_t.FormatLog` composes `self.Text` from the hostname, the
formatter-chain output, the level name and the formatted message, then —
when `TextLimit > 0` and `len(Text) > TextLimit` — runs

  n := self.TextLimit
  for ; n > 0; n-- {
    if r, _ := utf8.DecodeLastRuneInString(self.Text[:n]); r != utf8.RuneError { break }
  }
  self.Text = self.Text[:n]

Go strings are byte strings; we embed them as `List Nat` and embed the
`unicode/utf8` routines the loop calls (`DecodeLastRuneInString`,
`DecodeRuneInString`, `RuneStart`) byte for byte. -/

/-- `utf8.RuneError` = U+FFFD. -/
def RuneError : Nat := 0xFFFD

/-- Continuation-byte test `0x80 ≤ b ≤ 0xBF` (the `locb`/`hicb` bounds of
`unicode/utf8`). -/
def isCont (b : Nat) : Bool := 0x80 ≤ b && b ≤ 0xBF

/-- `utf8.RuneStart(b) = b&0xC0 != 0x80`. -/
def RuneStart (b : Nat) : Bool := b &&& 0xC0 != 0x80

/-- Accepted second-byte range of a three-byte sequence headed by `b0`
(`acceptRanges` of `unicode/utf8`: E0 → A0..BF, ED → 80..9F, else
80..BF). -/
def accept3 (b0 b1 : Nat) : Bool :=
  if b0 = 0xE0 then 0xA0 ≤ b1 && b1 ≤ 0xBF
  else if b0 = 0xED then 0x80 ≤ b1 && b1 ≤ 0x9F
  else isCont b1

/-- Accepted second-byte range of a four-byte sequence headed by `b0`
(F0 → 90..BF, F4 → 80..8F, else 80..BF). -/
def accept4 (b0 b1 : Nat) : Bool :=
  if b0 = 0xF0 then 0x90 ≤ b1 && b1 ≤ 0xBF
  else if b0 = 0xF4 then 0x80 ≤ b1 && b1 ≤ 0x8F
  else isCont b1

/-- `utf8.DecodeRuneInString`: decode the first rune of the byte string,
returning `(rune, size)`; every malformed, truncated, overlong,
surrogate or out-of-range head yields `(RuneError, 1)` (`(RuneError, 0)`
on empty input). -/
def goDecodeRune : List Nat → Nat × Nat
  | [] => (RuneError, 0)
  | b0 :: rest =>
    if b0 < 0x80 then (b0, 1)
    else if b0 < 0xC2 then (RuneError, 1)
    else if b0 ≤ 0xDF then
      match rest with
      | b1 :: _ => if isCont b1 then ((b0 - 0xC0) * 64 + (b1 - 0x80), 2) else (RuneError, 1)
      | [] => (RuneError, 1)
    else if b0 ≤ 0xEF then
      match rest with
      | b1 :: b2 :: _ =>
        if accept3 b0 b1 && isCont b2 then
          ((b0 - 0xE0) * 4096 + (b1 - 0x80) * 64 + (b2 - 0x80), 3)
        else (RuneError, 1)
      | _ => (RuneError, 1)
    else if b0 ≤ 0xF4 then
      match rest with
      | b1 :: b2 :: b3 :: _ =>
        if accept4 b0 b1 && isCont b2 && isCont b3 then
          ((b0 - 0xF0) * 262144 + (b1 - 0x80) * 4096 + (b2 - 0x80) * 64 + (b3 - 0x80), 4)
        else (RuneError, 1)
      | _ => (RuneError, 1)
    else (RuneError, 1)

/-- The index `start` computed by `DecodeLastRuneInString`'s backward
scan: from `end-2` down to `lim = max(end-4, 0)`, stop at the first
`RuneStart` byte; with none found, `start = lim - 1` clamped at 0, which
in ℕ-subtraction is `end - 5`. -/
def lastStartIdx (s : List Nat) : Nat :=
  let e := s.length
  if 2 ≤ e ∧ RuneStart (s.getD (e - 2) 0) = true then e - 2
  else if 3 ≤ e ∧ RuneStart (s.getD (e - 3) 0) = true then e - 3
  else if 4 ≤ e ∧ RuneStart (s.getD (e - 4) 0) = true then e - 4
  else e - 5

/-- `utf8.DecodeLastRuneInString`: `(RuneError, 0)` on empty input; a
final ASCII byte decodes as itself; otherwise decode forward from the
scanned start and demand the rune end exactly at the end of the string,
else `(RuneError, 1)`. -/
def DecodeLastRune (s : List Nat) : Nat × Nat :=
  match s with
  | [] => (RuneError, 0)
  | _ :: _ =>
    let e := s.length
    let last := s.getD (e - 1) 0
    if last < 0x80 then (last, 1)
    else
      let start := lastStartIdx s
      let rs := goDecodeRune (s.drop start)
      if start + rs.2 = e then rs else (RuneError, 1)

/-- The loop's break test: the last rune of `s` decodes to something
other than `RuneError`. -/
def lastRuneOk (s : List Nat) : Bool := (DecodeLastRune s).1 != RuneError

/-- The countdown loop: starting at the limit, decrement `n` while the
last rune of `Text[:n]` is `RuneError`, stopping at 0. -/
def truncLen (text : List Nat) : Nat → Nat
  | 0 => 0
  | n + 1 => if lastRuneOk (text.take (n + 1)) then n + 1 else truncLen text n

/-- The truncation step of `MessageTG_t.FormatLog`: applied only when
`TextLimit > 0 && len(Text) > TextLimit` (Go `int` embedded as `Int`). -/
def MessageTG_truncate (textLimit : Int) (text : List Nat) : List Nat :=
  if 0 < textLimit ∧ textLimit < (text.length : Int) then
    text.take (truncLen text textLimit.toNat)
  else text

/-- The composition of `self.Text` in `MessageTG_t.FormatLog`: hostname
plus a space when non-empty, the formatter-chain output, then
`m.Level.Name + " " + fmt.Sprintf(m.Format, m.Args...)` (the latter two
abstracted as the already-rendered byte strings `chainOut` and
`levelAndMsg`). -/
def MessageTG_text (hostname chainOut levelAndMsg : List Nat) : List Nat :=
  (if hostname = [] then [] else hostname ++ [0x20]) ++ chainOut ++ levelAndMsg

/-- One well-formed UTF-8 character encoding, with Go's accepted ranges
(no overlong forms, no surrogates, max U+10FFFF). -/
def ValidChar (c : List Nat) : Bool :=
  match c with
  | [b0] => b0 < 0x80
  | [b0, b1] => 0xC2 ≤ b0 && b0 ≤ 0xDF && isCont b1
  | [b0, b1, b2] => 0xE0 ≤ b0 && b0 ≤ 0xEF && accept3 b0 b1 && isCont b2
  | [b0, b1, b2, b3] => 0xF0 ≤ b0 && b0 ≤ 0xF4 && accept4 b0 b1 && isCont b2 && isCont b3
  | _ => false

/-- A byte string that is a concatenation of well-formed UTF-8 character
encodings (entirely decodable). -/
inductive ValidUtf8 : List Nat → Prop
  | nil : ValidUtf8 []
  | cons {c s : List Nat} : ValidChar c = true → ValidUtf8 s → ValidUtf8 (c ++ s)

/-! ### Byte and list auxiliaries for the truncation proof -/

theorem getD_append_len (l t : List Nat) (i : Nat) :
    (l ++ t).getD (l.length + i) 0 = t.getD i 0 := by
  rw [List.getD_append_right]
  · simp
  · omega

theorem getD_drop_add (s : List Nat) (n i : Nat) :
    (s.drop n).getD i 0 = s.getD (n + i) 0 := by
  simp [List.getD_eq_getElem?_getD, List.getElem?_drop]

theorem truncLen_le (text : List Nat) : ∀ n, truncLen text n ≤ n := by
  intro n
  induction n with
  | zero => simp [truncLen]
  | succ m ih =>
    rw [truncLen]
    split_ifs
    · exact Nat.le_refl _
    · exact Nat.le_succ_of_le ih

theorem truncLen_ok (text : List Nat) : ∀ n,
    truncLen text n = 0 ∨ lastRuneOk (text.take (truncLen text n)) = true := by
  intro n
  induction n with
  | zero => exact Or.inl rfl
  | succ m ih =>
    rw [truncLen]
    split_ifs with h
    · exact Or.inr h
    · exact ih

theorem land_C0_eq : ∀ b, b < 256 → ((b &&& 0xC0 = 0x80) ↔ (0x80 ≤ b ∧ b ≤ 0xBF)) := by
  decide

theorem isCont_bounds (b : Nat) (h : isCont b = true) : 0x80 ≤ b ∧ b ≤ 0xBF := by
  simpa [isCont] using h

theorem RuneStart_iff (b : Nat) (hb : b < 256) :
    RuneStart b = true ↔ ¬(0x80 ≤ b ∧ b ≤ 0xBF) := by
  rw [RuneStart, bne_iff_ne, Ne, land_C0_eq b hb]

theorem RuneStart_of_lead (b : Nat) (h1 : 0xC2 ≤ b) (h2 : b ≤ 0xF4) : RuneStart b = true :=
  (RuneStart_iff b (by omega)).mpr (by omega)

theorem RuneStart_false_of_cont (b : Nat) (h : isCont b = true) : RuneStart b = false := by
  obtain ⟨h1, h2⟩ := isCont_bounds b h
  cases hR : RuneStart b
  · rfl
  · exact absurd ⟨h1, h2⟩ ((RuneStart_iff b (by omega)).mp hR)

theorem accept3_cont (b0 b1 : Nat) (h : accept3 b0 b1 = true) : isCont b1 = true := by
  rw [accept3] at h
  split_ifs at h <;> simp [isCont] at h ⊢ <;> omega

theorem accept4_cont (b0 b1 : Nat) (h : accept4 b0 b1 = true) : isCont b1 = true := by
  rw [accept4] at h
  split_ifs at h <;> simp [isCont] at h ⊢ <;> omega

/-- Shape of a successful forward decode: a one-byte rune starts with an
ASCII byte, a multi-byte rune ends (at index `size - 1`) with a
continuation byte. -/
theorem goDecodeRune_ok_shape (t : List Nat) (hr : (goDecodeRune t).1 ≠ RuneError) :
    ((goDecodeRune t).2 = 1 ∧ t.getD 0 0 < 0x80)
    ∨ (2 ≤ (goDecodeRune t).2 ∧ isCont (t.getD ((goDecodeRune t).2 - 1) 0) = true) := by
  rcases t with _ | ⟨b0, _ | ⟨b1, _ | ⟨b2, _ | ⟨b3, rest⟩⟩⟩⟩
  · exact absurd rfl hr
  all_goals
    simp only [goDecodeRune] at hr ⊢
  all_goals
    split_ifs at hr ⊢ with h1 h2 h3 h4 h5 <;>
      first
        | exact absurd rfl hr
        | (left; exact ⟨rfl, h1⟩)
        | (right;
           refine ⟨by simp, ?_⟩;
           simp_all [List.getD_cons_succ, List.getD_cons_zero])

/-- Unfolding of `DecodeLastRune` on a non-empty string. -/
theorem DecodeLastRune_ne_nil (s : List Nat) (hs : s ≠ []) :
    DecodeLastRune s =
      (if s.getD (s.length - 1) 0 < 0x80 then (s.getD (s.length - 1) 0, 1)
       else
         (if lastStartIdx s + (goDecodeRune (s.drop (lastStartIdx s))).2 = s.length
          then goDecodeRune (s.drop (lastStartIdx s)) else (RuneError, 1))) := by
  rcases s with _ | ⟨b, t⟩
  · exact absurd rfl hs
  · rfl

/-- If the last rune of `s` decodes successfully, the final byte of `s`
is an ASCII byte or a continuation byte. -/
theorem lastRuneOk_last_byte (s : List Nat) (h : lastRuneOk s = true) :
    s ≠ [] ∧ (s.getD (s.length - 1) 0 < 0x80 ∨ isCont (s.getD (s.length - 1) 0) = true) := by
  have hne : s ≠ [] := by
    intro hnil
    rw [hnil] at h
    exact absurd h (by simp [lastRuneOk, DecodeLastRune])
  refine ⟨hne, ?_⟩
  rw [lastRuneOk, DecodeLastRune_ne_nil s hne] at h
  by_cases hlt : s.getD (s.length - 1) 0 < 0x80
  · exact Or.inl hlt
  · rw [if_neg hlt] at h
    by_cases hsz : lastStartIdx s + (goDecodeRune (s.drop (lastStartIdx s))).2 = s.length
    · rw [if_pos hsz] at h
      have hrne : (goDecodeRune (s.drop (lastStartIdx s))).1 ≠ RuneError := bne_iff_ne.mp h
      rcases goDecodeRune_ok_shape _ hrne with ⟨h1sz, h1b⟩ | ⟨h2sz, h2c⟩
      · rw [getD_drop_add] at h1b
        have hlen : 1 ≤ s.length := by
          rcases s with _ | ⟨b, t⟩
          · exact absurd rfl hne
          · simp
        have heq : lastStartIdx s + 0 = s.length - 1 := by omega
        rw [heq] at h1b
        exact absurd h1b hlt
      · rw [getD_drop_add] at h2c
        have heq : lastStartIdx s + ((goDecodeRune (s.drop (lastStartIdx s))).2 - 1)
            = s.length - 1 := by omega
        rw [heq] at h2c
        exact Or.inr h2c
    · rw [if_neg hsz] at h
      exact absurd h (by simp)

/-! ### A string cut inside a multi-byte character fails the break test -/

/-- Cut after the lead byte only: the final byte is a multi-byte lead
(0xC2..0xF4), neither ASCII nor a continuation byte. -/
theorem lastRuneOk_false_of_lead_end (pre : List Nat) (b0 : Nat)
    (h1 : 0xC2 ≤ b0) (h2 : b0 ≤ 0xF4) :
    lastRuneOk (pre ++ [b0]) = false := by
  cases hOk : lastRuneOk (pre ++ [b0])
  · rfl
  · exfalso
    obtain ⟨-, hlast⟩ := lastRuneOk_last_byte _ hOk
    have hb : (pre ++ [b0]).getD ((pre ++ [b0]).length - 1) 0 = b0 := by
      have hlen : (pre ++ [b0]).length = pre.length + 1 := by simp
      rw [hlen, show pre.length + 1 - 1 = pre.length + 0 from rfl, getD_append_len]
      rfl
    rw [hb] at hlast
    rcases hlast with h | h
    · omega
    · have := isCont_bounds b0 h
      omega

/-- Cut two bytes into a three- or four-byte character: the backward
scan finds the lead byte, the forward decode comes up short, and the
size check fails. -/
theorem lastRuneOk_false_mid2 (pre : List Nat) (b0 b1 : Nat)
    (h0l : 0xE0 ≤ b0) (h0u : b0 ≤ 0xF4) (h1c : isCont b1 = true) :
    lastRuneOk (pre ++ [b0, b1]) = false := by
  have hlen : (pre ++ [b0, b1]).length = pre.length + 2 := by simp
  have hne : (pre ++ [b0, b1]) ≠ [] := by simp
  rw [lastRuneOk, DecodeLastRune_ne_nil _ hne]
  have hlast : (pre ++ [b0, b1]).getD ((pre ++ [b0, b1]).length - 1) 0 = b1 := by
    rw [hlen, show pre.length + 2 - 1 = pre.length + 1 from rfl, getD_append_len]
    rfl
  have hlt : ¬ ((pre ++ [b0, b1]).getD ((pre ++ [b0, b1]).length - 1) 0 < 0x80) := by
    rw [hlast]
    have := isCont_bounds b1 h1c
    omega
  rw [if_neg hlt]
  have hidx : lastStartIdx (pre ++ [b0, b1]) = pre.length := by
    have hg : 2 ≤ (pre ++ [b0, b1]).length ∧
        RuneStart ((pre ++ [b0, b1]).getD ((pre ++ [b0, b1]).length - 2) 0) = true := by
      refine ⟨by rw [hlen]; omega, ?_⟩
      rw [hlen, show pre.length + 2 - 2 = pre.length + 0 from rfl, getD_append_len]
      exact RuneStart_of_lead b0 (by omega) h0u
    simp only [lastStartIdx]
    rw [if_pos hg, hlen]
    omega
  have hdrop : (pre ++ [b0, b1]).drop (lastStartIdx (pre ++ [b0, b1])) = [b0, b1] := by
    rw [hidx]
    exact List.drop_left pre [b0, b1]
  have hdec : goDecodeRune [b0, b1] = (RuneError, 1) := by
    simp only [goDecodeRune]
    rw [if_neg (by omega), if_neg (by omega), if_neg (by omega)]
    by_cases hEF : b0 ≤ 0xEF
    · rw [if_pos hEF]
    · rw [if_neg hEF, if_pos (by omega)]
  rw [hdrop, hdec]
  rw [if_neg (by
    rw [hidx, hlen]
    show ¬ (pre.length + 1 = pre.length + 2)
    omega)]
  simp

/-- Cut three bytes into a four-byte character: the byte before the last
is a continuation byte, so the scan skips it, finds the lead byte, and
the short decode fails the size check. -/
theorem lastRuneOk_false_mid3 (pre : List Nat) (b0 b1 b2 : Nat)
    (h0l : 0xF0 ≤ b0) (h0u : b0 ≤ 0xF4) (h1c : isCont b1 = true) (h2c : isCont b2 = true) :
    lastRuneOk (pre ++ [b0, b1, b2]) = false := by
  have hlen : (pre ++ [b0, b1, b2]).length = pre.length + 3 := by simp
  have hne : (pre ++ [b0, b1, b2]) ≠ [] := by simp
  rw [lastRuneOk, DecodeLastRune_ne_nil _ hne]
  have hlast : (pre ++ [b0, b1, b2]).getD ((pre ++ [b0, b1, b2]).length - 1) 0 = b2 := by
    rw [hlen, show pre.length + 3 - 1 = pre.length + 2 from rfl, getD_append_len]
    rfl
  have hlt : ¬ ((pre ++ [b0, b1, b2]).getD ((pre ++ [b0, b1, b2]).length - 1) 0 < 0x80) := by
    rw [hlast]
    have := isCont_bounds b2 h2c
    omega
  rw [if_neg hlt]
  have hidx : lastStartIdx (pre ++ [b0, b1, b2]) = pre.length := by
    have hg1 : ¬ (2 ≤ (pre ++ [b0, b1, b2]).length ∧
        RuneStart ((pre ++ [b0, b1, b2]).getD ((pre ++ [b0, b1, b2]).length - 2) 0) = true) := by
      rintro ⟨-, hR⟩
      rw [hlen, show pre.length + 3 - 2 = pre.length + 1 from rfl, getD_append_len] at hR
      rw [show ([b0, b1, b2] : List Nat).getD 1 0 = b1 from rfl] at hR
      rw [RuneStart_false_of_cont b1 h1c] at hR
      exact Bool.false_ne_true hR
    have hg2 : 3 ≤ (pre ++ [b0, b1, b2]).length ∧
        RuneStart ((pre ++ [b0, b1, b2]).getD ((pre ++ [b0, b1, b2]).length - 3) 0) = true := by
      refine ⟨by rw [hlen]; omega, ?_⟩
      rw [hlen, show pre.length + 3 - 3 = pre.length + 0 from rfl, getD_append_len]
      exact RuneStart_of_lead b0 (by omega) h0u
    simp only [lastStartIdx]
    rw [if_neg hg1, if_pos hg2, hlen]
    omega
  have hdrop : (pre ++ [b0, b1, b2]).drop (lastStartIdx (pre ++ [b0, b1, b2])) = [b0, b1, b2] := by
    rw [hidx]
    exact List.drop_left pre [b0, b1, b2]
  have hdec : goDecodeRune [b0, b1, b2] = (RuneError, 1) := by
    simp only [goDecodeRune]
    rw [if_neg (by omega), if_neg (by omega), if_neg (by omega), if_neg (by omega),
      if_pos (by omega)]
  rw [hdrop, hdec]
  rw [if_neg (by
    rw [hidx, hlen]
    show ¬ (pre.length + 1 = pre.length + 3)
    omega)]
  simp

/-- Any cut strictly inside one well-formed character fails the break
test, whatever precedes it. -/
theorem lastRuneOk_false_of_split (pre c : List Nat) (k : Nat)
    (hc : ValidChar c = true) (hk1 : 1 ≤ k) (hk2 : k < c.length) :
    lastRuneOk (pre ++ c.take k) = false := by
  rcases c with _ | ⟨b0, _ | ⟨b1, _ | ⟨b2, _ | ⟨b3, rest⟩⟩⟩⟩
  · simp at hk2
  · simp at hk2
    omega
  · have hk : k = 1 := by
      simp at hk2
      omega
    subst hk
    simp only [ValidChar, Bool.and_eq_true, decide_eq_true_eq] at hc
    exact lastRuneOk_false_of_lead_end pre b0 (by omega) (by omega)
  · simp only [ValidChar, Bool.and_eq_true, decide_eq_true_eq] at hc
    have hb1 : isCont b1 = true := accept3_cont b0 b1 hc.1.2
    simp only [List.length_cons, List.length_nil] at hk2
    interval_cases k
    · exact lastRuneOk_false_of_lead_end pre b0 (by omega) (by omega)
    · exact lastRuneOk_false_mid2 pre b0 b1 (by omega) (by omega) hb1
  · rcases rest with _ | ⟨b4, rest2⟩
    · simp only [ValidChar, Bool.and_eq_true, decide_eq_true_eq] at hc
      have hb1 : isCont b1 = true := accept4_cont b0 b1 hc.1.1.2
      simp only [List.length_cons, List.length_nil] at hk2
      interval_cases k
      · exact lastRuneOk_false_of_lead_end pre b0 (by omega) (by omega)
      · exact lastRuneOk_false_mid2 pre b0 b1 (by omega) (by omega) hb1
      · exact lastRuneOk_false_mid3 pre b0 b1 b2 (by omega) (by omega) hb1 hc.1.2
    · simp [ValidChar] at hc

/-! ### Prefixes of a valid string and the truncation theorem -/

/-- Every prefix of a valid string either ends on a character boundary
(and is itself valid) or cuts strictly inside one character of the
unique parse. -/
theorem validUtf8_take_dichotomy {T : List Nat} (hT : ValidUtf8 T) :
    ∀ n, n ≤ T.length →
      ValidUtf8 (T.take n)
      ∨ (∃ pre c k, ValidUtf8 pre ∧ ValidChar c = true ∧ 1 ≤ k ∧ k < c.length
          ∧ T.take n = pre ++ c.take k) := by
  induction hT with
  | nil =>
    intro n hn
    left
    simp only [List.length_nil, Nat.le_zero] at hn
    subst hn
    exact ValidUtf8.nil
  | @cons c s hc hs ih =>
    intro n hn
    by_cases hcn : c.length ≤ n
    · have htake : (c ++ s).take n = c ++ s.take (n - c.length) := by
        rw [List.take_append_eq_append_take, List.take_of_length_le hcn]
      have hn2 : n - c.length ≤ s.length := by
        rw [List.length_append] at hn
        omega
      rcases ih (n - c.length) hn2 with hv | ⟨pre, c2, k, hpre, hc2, hk1, hk2, heq⟩
      · left
        rw [htake]
        exact ValidUtf8.cons hc hv
      · right
        refine ⟨c ++ pre, c2, k, ValidUtf8.cons hc hpre, hc2, hk1, hk2, ?_⟩
        rw [htake, heq, List.append_assoc]
    · push_neg at hcn
      by_cases hn0 : n = 0
      · left
        subst hn0
        exact ValidUtf8.nil
      · right
        refine ⟨[], c, n, ValidUtf8.nil, hc, by omega, hcn, ?_⟩
        rw [List.take_append_of_le_length (by omega)]
        simp

/-- A prefix of a valid string that passes the break test ends on a
character boundary, hence is itself entirely decodable. -/
theorem valid_take_of_lastRuneOk {T : List Nat} (hT : ValidUtf8 T) (n : Nat)
    (hn : n ≤ T.length) (h : lastRuneOk (T.take n) = true) : ValidUtf8 (T.take n) := by
  rcases validUtf8_take_dichotomy hT n hn with hv | ⟨pre, c, k, hpre, hc, hk1, hk2, heq⟩
  · exact hv
  · rw [heq, lastRuneOk_false_of_split pre c k hc hk1 hk2] at h
    exact absurd h (by simp)

/-- A prefix of a valid string that cuts inside a character fails the
break test. -/
theorem lastRuneOk_false_of_invalid_take {T : List Nat} (hT : ValidUtf8 T) (n : Nat)
    (hn : n ≤ T.length) (hnv : ¬ ValidUtf8 (T.take n)) : lastRuneOk (T.take n) = false := by
  rcases validUtf8_take_dichotomy hT n hn with hv | ⟨pre, c, k, hpre, hc, hk1, hk2, heq⟩
  · exact absurd hv hnv
  · rw [heq]
    exact lastRuneOk_false_of_split pre c k hc hk1 hk2

/-- The full truncation contract of `MessageTG_t.FormatLog` on a valid
composed text: the result is a prefix, fits the limit, is entirely
decodable, and is strictly shorter than the limit whenever cutting at
the limit would split a multi-byte character. -/
theorem tg_truncate_spec (text : List Nat) (textLimit : Int) (hlim : 0 < textLimit)
    (hvalid : ValidUtf8 text) :
    (∃ rest, text = MessageTG_truncate textLimit text ++ rest)
    ∧ ((MessageTG_truncate textLimit text).length : Int) ≤ textLimit
    ∧ ValidUtf8 (MessageTG_truncate textLimit text)
    ∧ (¬ ValidUtf8 (text.take textLimit.toNat) →
        ((MessageTG_truncate textLimit text).length : Int) < textLimit) := by
  by_cases hcond : 0 < textLimit ∧ textLimit < (text.length : Int)
  · rw [MessageTG_truncate, if_pos hcond]
    have hlimnat : (textLimit.toNat : Int) = textLimit := Int.toNat_of_nonneg (le_of_lt hlim)
    have hlt : textLimit.toNat < text.length := by omega
    have htr_le : truncLen text textLimit.toNat ≤ textLimit.toNat := truncLen_le text _
    have hlen_take : (text.take (truncLen text textLimit.toNat)).length
        = truncLen text textLimit.toNat := by
      rw [List.length_take]
      omega
    refine ⟨⟨text.drop (truncLen text textLimit.toNat),
        (List.take_append_drop _ text).symm⟩, ?_, ?_, ?_⟩
    · rw [hlen_take]
      omega
    · rcases truncLen_ok text textLimit.toNat with h0 | hok
      · rw [h0]
        exact ValidUtf8.nil
      · exact valid_take_of_lastRuneOk hvalid _ (by omega) hok
    · intro hnv
      have hfalse : lastRuneOk (text.take textLimit.toNat) = false :=
        lastRuneOk_false_of_invalid_take hvalid textLimit.toNat (by omega) hnv
      have hlt2 : truncLen text textLimit.toNat < textLimit.toNat := by
        rcases hn : textLimit.toNat with _ | m
        · omega
        · rw [hn] at hfalse
          rw [truncLen, if_neg (by rw [hfalse]; simp)]
          have := truncLen_le text m
          omega
      rw [hlen_take]
      omega
  · rw [MessageTG_truncate, if_neg hcond]
    have hle : (text.length : Int) ≤ textLimit := by
      by_contra hgt
      push_neg at hgt
      exact hcond ⟨hlim, hgt⟩
    refine ⟨⟨[], by simp⟩, hle, hvalid, ?_⟩
    intro hnv
    exfalso
    have htk : text.take textLimit.toNat = text := List.take_of_length_le (by omega)
    rw [htk] at hnv
    exact hnv hvalid

/-- C6: for every composed input text that is valid UTF-8 and every
positive `TextLimit`, the truncation step of `MessageTG_t.FormatLog`
yields a prefix of the composed text of length at most `TextLimit`,
cut at a valid UTF-8 character boundary (the result is entirely
decodable, so no multi-byte character is split); and when cutting
exactly at the limit would split a multi-byte character, the resulting
text is strictly shorter than the limit. -/
theorem C6_messageTG_truncation (hostname chainOut levelAndMsg : List Nat)
    (textLimit : Int) (hlim : 0 < textLimit)
    (hvalid : ValidUtf8 (MessageTG_text hostname chainOut levelAndMsg)) :
    (∃ rest, MessageTG_text hostname chainOut levelAndMsg
        = MessageTG_truncate textLimit (MessageTG_text hostname chainOut levelAndMsg) ++ rest)
    ∧ ((MessageTG_truncate textLimit (MessageTG_text hostname chainOut levelAndMsg)).length
        : Int) ≤ textLimit
    ∧ ValidUtf8 (MessageTG_truncate textLimit (MessageTG_text hostname chainOut levelAndMsg))
    ∧ (¬ ValidUtf8 ((MessageTG_text hostname chainOut levelAndMsg).take textLimit.toNat) →
        ((MessageTG_truncate textLimit (MessageTG_text hostname chainOut levelAndMsg)).length
          : Int) < textLimit) :=
  tg_truncate_spec (MessageTG_text hostname chainOut levelAndMsg) textLimit hlim hvalid

/-- Witness for C6: the composed text bytes 61 C3 A9 truncated to limit
2, which would split the two-byte character at the end, yield the
one-byte prefix 61. -/
theorem C6_messageTG_truncation_witness :
    (0 : Int) < 2
    ∧ ValidUtf8 (MessageTG_text [] [] [0x61, 0xC3, 0xA9])
    ∧ MessageTG_truncate 2 (MessageTG_text [] [] [0x61, 0xC3, 0xA9]) = [0x61]
    ∧ ((∃ rest, MessageTG_text [] [] [0x61, 0xC3, 0xA9]
          = MessageTG_truncate 2 (MessageTG_text [] [] [0x61, 0xC3, 0xA9]) ++ rest)
        ∧ ((MessageTG_truncate 2 (MessageTG_text [] [] [0x61, 0xC3, 0xA9])).length : Int) ≤ 2
        ∧ ValidUtf8 (MessageTG_truncate 2 (MessageTG_text [] [] [0x61, 0xC3, 0xA9]))
        ∧ (¬ ValidUtf8 ((MessageTG_text [] [] [0x61, 0xC3, 0xA9]).take (2 : Int).toNat) →
            ((MessageTG_truncate 2 (MessageTG_text [] [] [0x61, 0xC3, 0xA9])).length : Int)
              < 2)) :=
  have hv : ValidUtf8 (MessageTG_text [] [] [0x61, 0xC3, 0xA9]) :=
    ValidUtf8.cons (c := [0x61]) rfl (ValidUtf8.cons (c := [0xC3, 0xA9]) rfl ValidUtf8.nil)
  ⟨by decide, hv, by decide, C6_messageTG_truncation [] [] [0x61, 0xC3, 0xA9] 2 (by decide) hv⟩

end LogGo
